import Mathlib

/-!
Shallow embedding of the resume-backend core, checked against its
natural-language specification.

Modelled source files:
* src/app/utils/latex.py — LaTeX escaper and inline bullet formatter;
* src/app/services/section_service.py and src/app/routers/sections.py —
  the versioned section store (create / update / delete-version);
* src/app/services/generator_service.py — composition resolver, fragment
  writer and the pdflatex build pipeline.

Strings are modelled as lists of characters.  The Python string operations
the code relies on (single-character split, find with a start index,
slicing, replace with a one-character pattern) are defined below on
List Char exactly as Python defines them.
-/

namespace ResumeBackend

/-- Converts a Lean string literal to the List Char string model. -/
def S (s : String) : List Char := s.data

/-- The left brace character, written by codepoint. -/
def lb : Char := Char.ofNat 123

/-- The right brace character, written by codepoint. -/
def rb : Char := Char.ofNat 125

/-- Concatenation map: the effect of one character-wise replacement pass. -/
def cmap (f : Char → List Char) : List Char → List Char
  | [] => []
  | c :: t => f c ++ cmap f t

/-- Python str.split with a one-character separator. -/
def splitOnChar (sep : Char) : List Char → List (List Char)
  | [] => [[]]
  | c :: t =>
    if c = sep then [] :: splitOnChar sep t
    else
      match splitOnChar sep t with
      | [] => [[c]]
      | p :: ps => (c :: p) :: ps

/-- Python sep.join(xs). -/
def joinWith (sep : List Char) : List (List Char) → List Char
  | [] => []
  | [x] => x
  | x :: xs => x ++ sep ++ joinWith sep xs

/-- Tests whether the first list is a prefix of the second. -/
def isPre : List Char → List Char → Bool
  | [], _ => true
  | _ :: _, [] => false
  | a :: as, b :: bs => a == b && isPre as bs

/-- Scanning helper for findFrom; the fuel counts remaining candidate
start positions. -/
def findFromAux (pat text : List Char) : Nat → Nat → Option Nat
  | _, 0 => none
  | start, fuel + 1 =>
    if isPre pat (text.drop start) then some start
    else findFromAux pat text (start + 1) fuel

/-- Python text.find(pat, start); none plays the role of -1. -/
def findFrom (pat text : List Char) (start : Nat) : Option Nat :=
  findFromAux pat text start (text.length + 1 - start)

/-- Python slice text[a:b]. -/
def slice (t : List Char) (a b : Nat) : List Char := (t.take b).drop a

/-! ## escape_latex (src/app/utils/latex.py lines 4-33) -/

/-- The replacement table of escape_latex, listed in exactly the order the
code applies the Python str.replace calls. -/
def replacements : List (Char × List Char) :=
  [('\\', S "\\textbackslash" ++ [lb, rb]),
   ('&', S "\\&"),
   ('%', S "\\%"),
   ('$', S "\\$"),
   ('#', S "\\#"),
   ('_', S "\\_"),
   (lb, ['\\', lb]),
   (rb, ['\\', rb]),
   ('~', S "\\textasciitilde" ++ [lb, rb]),
   ('^', S "\\textasciicircum" ++ [lb, rb])]

/-- Applies the replacement table sequentially, each Python str.replace with
a one-character pattern being exactly one character-wise expansion pass over
the text produced by the previous passes. -/
def applyReps (rs : List (Char × List Char)) (t : List Char) : List Char :=
  rs.foldl (fun acc pr => cmap (fun c => if c = pr.1 then pr.2 else [c]) acc) t

/-- The escaper escape_latex of src/app/utils/latex.py: an emptiness guard
followed by the sequential replacement passes. -/
def escape_latex (t : List Char) : List Char :=
  if t.isEmpty then [] else applyReps replacements t

/-- Reference definition following the spec words of claim C3: the fixed
escape sequence of each control character, other characters unchanged. -/
def charwise_escape_char (c : Char) : List Char :=
  if c = '\\' then S "\\textbackslash" ++ [lb, rb]
  else if c = '&' then S "\\&"
  else if c = '%' then S "\\%"
  else if c = '$' then S "\\$"
  else if c = '#' then S "\\#"
  else if c = '_' then S "\\_"
  else if c = lb then ['\\', lb]
  else if c = rb then ['\\', rb]
  else if c = '~' then S "\\textasciitilde" ++ [lb, rb]
  else if c = '^' then S "\\textasciicircum" ++ [lb, rb]
  else [c]

/-- Reference character-wise escaper from the spec words of claim C3. -/
def charwise_escape (t : List Char) : List Char := cmap charwise_escape_char t

/-! ## process_bullet (src/app/utils/latex.py lines 36-88) -/

/-- Wrapper the code emits around a bold span. -/
def wrapBf (inner : List Char) : List Char := S "\\textbf" ++ [lb] ++ inner ++ [rb]

/-- Wrapper the code emits around an emphasis span. -/
def wrapIt (inner : List Char) : List Char := S "\\textit" ++ [lb] ++ inner ++ [rb]

/-- Closing position of a bold span opened at i: requires text[i:i+2] to be
two stars and returns text.find(two stars, i+2). -/
def boldEnd (t : List Char) (i : Nat) : Option Nat :=
  if slice t i (i + 2) = ['*', '*'] then findFrom ['*', '*'] t (i + 2) else none

/-- Closing position of an emphasis span opened at i: requires text[i] to be
a star and returns text.find(star, i+1). -/
def italEnd (t : List Char) (i : Nat) : Option Nat :=
  if t.get? i = some '*' then findFrom ['*'] t (i + 1) else none

/-- Fuelled unrolling of the while-loop of process_bullet.  The Python loop
has no fuel; returning none models non-termination.  Every non-final
iteration strictly increases i except the stuck state reached on an
unmatched single star, where i is reset to its own value, so
text.length + 1 units of fuel are enough for every terminating run. -/
def pbGo (text : List Char) : Nat → Nat → List Char → Option (List Char)
  | 0, _, _ => none
  | fuel + 1, i, acc =>
    if i < text.length then
      match boldEnd text i with
      | some e => pbGo text fuel (e + 2) (acc ++ wrapBf (escape_latex (slice text (i + 2) e)))
      | none =>
        match italEnd text i with
        | some e => pbGo text fuel (e + 1) (acc ++ wrapIt (escape_latex (slice text (i + 1) e)))
        | none =>
          match findFrom ['*'] text i with
          | none => some (acc ++ escape_latex (text.drop i))
          | some ns => pbGo text fuel ns (acc ++ escape_latex (slice text i ns))
    else some acc

/-- The formatter process_bullet of src/app/utils/latex.py on its string
core; none models a run that never terminates. -/
def process_bullet (t : List Char) : Option (List Char) :=
  pbGo t (t.length + 1) 0 []

/-! ## Supporting lemmas for the escaper -/

theorem cmap_append (f : Char → List Char) (a b : List Char) :
    cmap f (a ++ b) = cmap f a ++ cmap f b := by
  induction a with
  | nil => simp [cmap]
  | cons c t ih => simp [cmap, ih]

theorem applyReps_nil (rs : List (Char × List Char)) : applyReps rs [] = [] := by
  induction rs with
  | nil => rfl
  | cons r rs ih => simpa [applyReps, cmap] using ih

theorem applyReps_append (rs : List (Char × List Char)) (a b : List Char) :
    applyReps rs (a ++ b) = applyReps rs a ++ applyReps rs b := by
  induction rs generalizing a b with
  | nil => rfl
  | cons r rs ih => simp [applyReps, List.foldl, cmap_append] at *; exact ih _ _

theorem applyReps_eq_cmap (rs : List (Char × List Char)) (t : List Char) :
    applyReps rs t = cmap (fun c => applyReps rs [c]) t := by
  induction t with
  | nil => simp [applyReps_nil, cmap]
  | cons c t ih =>
    have h : (c :: t) = [c] ++ t := rfl
    rw [h, applyReps_append, ih]
    simp [cmap]

theorem escape_latex_eq_cmap (t : List Char) :
    escape_latex t = cmap (fun c => applyReps replacements [c]) t := by
  cases t with
  | nil => rfl
  | cons c t =>
    rw [escape_latex, if_neg (by simp)]
    exact applyReps_eq_cmap _ _

/-- Characters outside the control set pass through every replacement pass. -/
theorem applyReps_single_plain (c : Char)
    (h1 : c ≠ '\\') (h2 : c ≠ '&') (h3 : c ≠ '%') (h4 : c ≠ '$')
    (h5 : c ≠ '#') (h6 : c ≠ '_') (h7 : c ≠ lb) (h8 : c ≠ rb)
    (h9 : c ≠ '~') (h10 : c ≠ '^') :
    applyReps replacements [c] = [c] := by
  simp [applyReps, replacements, List.foldl, cmap, h1, h2, h3, h4, h5, h6, h7, h8, h9, h10]

/-- Spans a single non-control character through all replacement passes and
through the reference escaper with the same result. -/
theorem applyReps_single_eq_charwise (c : Char) (hc : c ≠ '\\') :
    applyReps replacements [c] = charwise_escape_char c := by
  by_cases h2 : c = '&'
  · subst h2; decide
  by_cases h3 : c = '%'
  · subst h3; decide
  by_cases h4 : c = '$'
  · subst h4; decide
  by_cases h5 : c = '#'
  · subst h5; decide
  by_cases h6 : c = '_'
  · subst h6; decide
  by_cases h7 : c = lb
  · subst h7; decide
  by_cases h8 : c = rb
  · subst h8; decide
  by_cases h9 : c = '~'
  · subst h9; decide
  by_cases h10 : c = '^'
  · subst h10; decide
  rw [applyReps_single_plain c hc h2 h3 h4 h5 h6 h7 h8 h9 h10]
  simp [charwise_escape_char, hc, h2, h3, h4, h5, h6, h7, h8, h9, h10]

/-- Claim C2 (code evaluated at the failing input): on the unmatched-star
input named by the claim the scanning loop of process_bullet never
terminates.  For every amount of fuel and every accumulator the loop makes
no progress from position 0 — the unmatched star matches neither span
check, the plain-text scan finds the very same star at the current
position, appends the empty segment before it and resets the position to
itself — so no result is ever produced and the formatter does not return
the escaped literal text the claim describes. -/
theorem process_bullet_unmatched_star_diverges :
    (∀ fuel acc, pbGo (S "*dangling") fuel 0 acc = none) ∧
    process_bullet (S "*dangling") = none := by
  have step : ∀ f acc, pbGo (S "*dangling") (f + 1) 0 acc
      = pbGo (S "*dangling") f 0 (acc ++ escape_latex (slice (S "*dangling") 0 0)) := by
    intro f acc
    rfl
  have main : ∀ f acc, pbGo (S "*dangling") f 0 acc = none := by
    intro f
    induction f with
    | zero => intro acc; rfl
    | succ f ih => intro acc; rw [step]; exact ih _
  exact ⟨main, main _ _⟩

/-- Claim C3 counterexample: on the one-character string holding a single
backslash the code and the character-wise reference escaper disagree.  The
backslash pass runs first and the brace passes afterwards, so the braces
introduced by the backslash replacement are escaped again: the code yields
textbackslash followed by backslash-escaped braces instead of the reference
escape with its braces intact. -/
theorem escape_latex_backslash_counterexample :
    escape_latex (S "\\") = S "\\textbackslash" ++ ['\\', lb, '\\', rb] ∧
    charwise_escape (S "\\") = S "\\textbackslash" ++ [lb, rb] ∧
    escape_latex (S "\\") ≠ charwise_escape (S "\\") :=
  ⟨by decide, by decide, by decide⟩

/-- Claim C3 as amended: for every input string containing no backslash,
escape_latex equals the character-wise reference escaper (each control
character &, %, $, #, _, braces, tilde, caret is expanded to its fixed
escape sequence exactly once and every other character is reproduced
unchanged).  A backslash is the sole divergence: its replacement text has
its braces escaped again by the later brace passes. -/
theorem escape_latex_charwise_backslash_free (t : List Char) (h : '\\' ∉ t) :
    escape_latex t = charwise_escape t := by
  rw [escape_latex_eq_cmap, charwise_escape]
  induction t with
  | nil => rfl
  | cons c t ih =>
    simp only [List.mem_cons, not_or] at h
    obtain ⟨hc, ht⟩ := h
    rw [cmap, cmap, ih ht, applyReps_single_eq_charwise c (Ne.symm hc)]

/-- Claim C3 witness: a concrete backslash-free string on which the code
escaper and the reference escaper agree. -/
theorem escape_latex_charwise_backslash_free_witness :
    ('\\' ∉ S "a&b_c 100% done") ∧
    escape_latex (S "a&b_c 100% done") = charwise_escape (S "a&b_c 100% done") :=
  ⟨by decide, escape_latex_charwise_backslash_free _ (by decide)⟩

/-! ## get_next_version (src/app/services/section_service.py lines 10-13) -/

/-- Decimal digit character of a value below ten. -/
def digitChar : Nat → Char
  | 0 => '0'
  | 1 => '1'
  | 2 => '2'
  | 3 => '3'
  | 4 => '4'
  | 5 => '5'
  | 6 => '6'
  | 7 => '7'
  | 8 => '8'
  | _ => '9'

/-- Fuelled decimal printer; natDigits supplies n + 1 units of fuel, which
always covers the digit count. -/
def natDigitsF : Nat → Nat → List Char
  | 0, _ => []
  | fuel + 1, n =>
    if n < 10 then [digitChar n]
    else natDigitsF fuel (n / 10) ++ [digitChar (n % 10)]

/-- Decimal digits of a natural number, as Python formats an int. -/
def natDigits (n : Nat) : List Char := natDigitsF (n + 1) n

/-- Digit value of a character when it is a decimal digit. -/
def digitVal (c : Char) : Option Nat :=
  if '0' ≤ c ∧ c ≤ '9' then some (c.toNat - 48) else none

/-- Accumulating decimal parser over the characters of a numeral. -/
def parseNatAux : List Char → Nat → Option Nat
  | [], acc => some acc
  | c :: t, acc =>
    match digitVal c with
    | some d => parseNatAux t (acc * 10 + d)
    | none => none

/-- Python int(s) restricted to plain decimal numerals, the only numerals
the store ever produces; the empty string and any non-digit character are
hard errors. -/
def parseNat : List Char → Option Nat
  | [] => none
  | t => parseNatAux t 0

/-- The version incrementer get_next_version: split on the dot, require
exactly two components (the Python tuple unpacking raises otherwise), parse
the minor component as an integer (Python int raises otherwise) and emit
the major component unchanged with the minor incremented.  none models the
hard error. -/
def get_next_version (v : List Char) : Option (List Char) :=
  match splitOnChar '.' v with
  | [major, minor] =>
    match parseNat minor with
    | some m => some (major ++ '.' :: natDigits (m + 1))
    | none => none
  | _ => none

/-- Sequence of versions after n updates: each update applies
get_next_version to the previous current version. -/
def iterVersion : Nat → Option (List Char) → Option (List Char)
  | 0, v => v
  | n + 1, v => (iterVersion n v).bind get_next_version

theorem natDigitsF_fuel : ∀ f g n, n < f → n < g → natDigitsF f n = natDigitsF g n := by
  intro f
  induction f with
  | zero => intro g n h; omega
  | succ f ih =>
    intro g n hf hg
    cases g with
    | zero => omega
    | succ g =>
      by_cases h10 : n < 10
      · simp [natDigitsF, h10]
      · have hdiv : n / 10 < n := Nat.div_lt_self (by omega) (by omega)
        simp only [natDigitsF, h10, if_false]
        rw [ih g (n / 10) (by omega) (by omega)]

theorem natDigits_lt {n : Nat} (h : n < 10) : natDigits n = [digitChar n] := by
  simp [natDigits, natDigitsF, h]

theorem natDigits_ge {n : Nat} (h : 10 ≤ n) :
    natDigits n = natDigits (n / 10) ++ [digitChar (n % 10)] := by
  have hdiv : n / 10 < n := Nat.div_lt_self (by omega) (by omega)
  have h1 : natDigits n = natDigitsF n (n / 10) ++ [digitChar (n % 10)] := by
    simp [natDigits, natDigitsF, Nat.not_lt.mpr h]
  rw [h1, natDigitsF_fuel n (n / 10 + 1) (n / 10) (by omega) (by omega)]
  rfl

theorem natDigits_mem {n : Nat} : ∀ c ∈ natDigits n, ∃ d, d < 10 ∧ c = digitChar d := by
  induction n using Nat.strong_induction_on with
  | _ n ih =>
    by_cases h10 : n < 10
    · rw [natDigits_lt h10]
      intro c hc
      simp at hc
      exact ⟨n, h10, hc⟩
    · rw [natDigits_ge (by omega)]
      intro c hc
      rcases List.mem_append.mp hc with h | h
      · exact ih (n / 10) (Nat.div_lt_self (by omega) (by omega)) c h
      · simp at h
        exact ⟨n % 10, by omega, h⟩

theorem natDigits_no_dot {n : Nat} : '.' ∉ natDigits n := by
  intro hmem
  obtain ⟨d, hd, he⟩ := natDigits_mem _ hmem
  have : ∀ d, d < 10 → digitChar d ≠ '.' := by decide
  exact this d hd he.symm

theorem natDigits_ne_nil {n : Nat} : natDigits n ≠ [] := by
  by_cases h10 : n < 10
  · rw [natDigits_lt h10]; simp
  · rw [natDigits_ge (by omega)]; simp

theorem digitVal_digitChar : ∀ d, d < 10 → digitVal (digitChar d) = some d := by decide

theorem parseNatAux_append (a b : List Char) :
    ∀ acc, parseNatAux (a ++ b) acc = (parseNatAux a acc).bind (fun v => parseNatAux b v) := by
  induction a with
  | nil => intro acc; simp [parseNatAux]
  | cons c t ih =>
    intro acc
    cases h : digitVal c with
    | none => simp [parseNatAux, h]
    | some d => simp [parseNatAux, h, ih]

theorem parseNatAux_natDigits :
    ∀ n acc, parseNatAux (natDigits n) acc = some (acc * 10 ^ (natDigits n).length + n) := by
  intro n
  induction n using Nat.strong_induction_on with
  | _ n ih =>
    intro acc
    by_cases h10 : n < 10
    · rw [natDigits_lt h10]
      simp [parseNatAux, digitVal_digitChar n h10]
    · have hdiv : n / 10 < n := Nat.div_lt_self (by omega) (by omega)
      have hm : n % 10 < 10 := by omega
      have key : ∀ L : Nat, (acc * L + n / 10) * 10 + n % 10 = acc * (L * 10) + n := by
        intro L
        have h2 : n / 10 * 10 + n % 10 = n := Nat.div_add_mod' n 10
        calc (acc * L + n / 10) * 10 + n % 10
            = acc * (L * 10) + (n / 10 * 10 + n % 10) := by ring
          _ = acc * (L * 10) + n := by rw [h2]
      rw [natDigits_ge (by omega), parseNatAux_append, ih (n / 10) hdiv acc]
      simp [parseNatAux, digitVal_digitChar _ hm, Nat.pow_succ, key]

theorem parseNat_natDigits (n : Nat) : parseNat (natDigits n) = some n := by
  have hne : natDigits n ≠ [] := natDigits_ne_nil
  have heq : parseNat (natDigits n) = parseNatAux (natDigits n) 0 := by
    cases h : natDigits n with
    | nil => exact absurd h hne
    | cons c t => rfl
  rw [heq, parseNatAux_natDigits]
  simp

theorem splitOnChar_not_mem {sep : Char} : ∀ t, sep ∉ t → splitOnChar sep t = [t] := by
  intro t
  induction t with
  | nil => intro h; rfl
  | cons c t ih =>
    intro h
    simp only [List.mem_cons, not_or] at h
    rw [splitOnChar, if_neg (Ne.symm h.1), ih h.2]

theorem splitOnChar_append {sep : Char} (a b : List Char) (ha : sep ∉ a) :
    splitOnChar sep (a ++ sep :: b) = a :: splitOnChar sep b := by
  induction a with
  | nil => simp [splitOnChar]
  | cons c a ih =>
    simp only [List.mem_cons, not_or] at ha
    rw [List.cons_append, splitOnChar, if_neg (Ne.symm ha.1), ih ha.2]

/-- Claim C4: for every well-formed version written as decimal major dot
decimal minor, get_next_version increments only the minor component and
reprints the major unchanged; iterating from version 1.0 yields exactly the
sequence 1.0, 1.1, ..., 1.n with 1.9 followed by 1.10 and never a carry
into the major; malformed version strings (wrong component count or a
non-numeric minor) are hard errors. -/
theorem get_next_version_increments_minor :
    (∀ M N : Nat, get_next_version (natDigits M ++ '.' :: natDigits N)
        = some (natDigits M ++ '.' :: natDigits (N + 1))) ∧
    (∀ n : Nat, iterVersion n (some (S "1.0")) = some ('1' :: '.' :: natDigits n)) ∧
    get_next_version (S "1.9") = some (S "1.10") ∧
    get_next_version (S "2.9") ≠ some (S "3.0") ∧
    get_next_version (S "1.0.0") = none ∧
    get_next_version (S "1") = none ∧
    get_next_version (S "1.x") = none := by
  have main : ∀ M N : Nat, get_next_version (natDigits M ++ '.' :: natDigits N)
      = some (natDigits M ++ '.' :: natDigits (N + 1)) := by
    intro M N
    rw [get_next_version, splitOnChar_append _ _ natDigits_no_dot,
      splitOnChar_not_mem _ natDigits_no_dot]
    simp [parseNat_natDigits]
  refine ⟨main, ?_, by decide, by decide, by decide, by decide, by decide⟩
  intro n
  induction n with
  | zero => decide
  | succ n ih =>
    have h1 : ('1' : Char) :: '.' :: natDigits n = natDigits 1 ++ '.' :: natDigits n := rfl
    rw [iterVersion, ih]
    show get_next_version ('1' :: '.' :: natDigits n) = some ('1' :: '.' :: natDigits (n + 1))
    rw [h1, main 1 n]
    rfl

/-! ## Versioned section store
(src/app/models/section.py, src/app/services/section_service.py,
src/app/routers/sections.py) -/

/-- JSON-style payload stored in a section's content column.  The backend
stores JSONB values whose shapes the pipeline inspects are dictionaries,
lists and strings; Python truthiness distinguishes exactly the empty from
the non-empty values of each shape. -/
inductive Payload where
  | pstr (s : String)
  | plist (items : List Payload)
  | pdict (entries : List (String × Payload))

/-- Python truthiness of a payload value. -/
def truthyP : Payload → Bool
  | Payload.pstr s => !s.isEmpty
  | Payload.plist l => !l.isEmpty
  | Payload.pdict l => !l.isEmpty

/-- One stored row of the sections table.  Database identities and
timestamps are modelled by a counter: ids are unique and created_at grows
with insertion order, which is how the code orders by created_at. -/
structure Section where
  id : Nat
  user_id : Nat
  type : String
  key : String
  flavor : String
  version : List Char
  content : Payload
  is_current : Bool
  created_at : Nat

/-- The section store: the rows in insertion order plus the id counter. -/
structure DB where
  sections : List Section
  next_id : Nat

/-- Replaces the is_current flag of a section (the ORM attribute write). -/
def setCurFlag (b : Bool) (s : Section) : Section :=
  ⟨s.id, s.user_id, s.type, s.key, s.flavor, s.version, s.content, b, s.created_at⟩

/-- Membership of a row in the chain (owner, type, key, flavor). -/
def sameChain (uid : Nat) (t k f : String) (s : Section) : Bool :=
  s.user_id == uid && s.type == t && s.key == k && s.flavor == f

/-- A row that is the current one of the chain. -/
def curInChain (uid : Nat) (t k f : String) (s : Section) : Bool :=
  sameChain uid t k f s && s.is_current

/-- Query get_current_section: first row of the chain carrying the current
flag (SQLAlchemy .first() on the filtered table, in insertion order). -/
def get_current_section (db : DB) (uid : Nat) (t k f : String) : Option Section :=
  db.sections.find? (fun s => curInChain uid t k f s)

/-- Query get_section_by_version: first row of the chain with the given
version label. -/
def get_section_by_version (db : DB) (uid : Nat) (t k f : String) (v : List Char) :
    Option Section :=
  db.sections.find? (fun s => sameChain uid t k f s && s.version == v)

/-- Row with the greatest created_at, as order_by created_at desc, first()
returns it; none on an empty row set. -/
def latestCreated : List Section → Option Section
  | [] => none
  | s :: rest =>
    match latestCreated rest with
    | none => some s
    | some m => some (if m.created_at > s.created_at then m else s)

/-- Service create_section: inserts version 1.0 as current. -/
def create_section (db : DB) (uid : Nat) (t k f : String) (content : Payload) :
    Section × DB :=
  let s : Section := ⟨db.next_id, uid, t, k, f, S "1.0", content, true, db.next_id⟩
  (s, ⟨db.sections ++ [s], db.next_id + 1⟩)

/-- Result of the POST handler. -/
inductive PutResult where
  | alreadyExists
  | created (s : Section)

/-- The POST handler create_section of src/app/routers/sections.py: rejects
with a 400 when a current block already exists for the chain, otherwise
persists version 1.0 as current.  Tag enrichment only rewrites the payload
before storing, so the content argument is the already-enriched payload. -/
def put_section (db : DB) (uid : Nat) (t k f : String) (content : Payload) :
    PutResult × DB :=
  match get_current_section db uid t k f with
  | some _ => (PutResult.alreadyExists, db)
  | none =>
    let r := create_section db uid t k f content
    (PutResult.created r.1, r.2)

/-- Result of the update service as the router reports it. -/
inductive UpdResult where
  | notFound
  | invalidVersion
  | updated (s : Section)

/-- Service update_section: when the chain has no current block, returns
None (the router turns it into a 404) and persists nothing; when the stored
current version is malformed, get_next_version raises before the commit and
the transaction is rolled back (invalidVersion, nothing persisted);
otherwise flips the current row's flag and inserts the incremented version
as the new current row. -/
def update_section (db : DB) (uid : Nat) (t k f : String) (content : Payload) :
    UpdResult × DB :=
  match get_current_section db uid t k f with
  | none => (UpdResult.notFound, db)
  | some cur =>
    match get_next_version cur.version with
    | none => (UpdResult.invalidVersion, db)
    | some nv =>
      let flipped := db.sections.map (fun s => if s.id == cur.id then setCurFlag false s else s)
      let ns : Section := ⟨db.next_id, uid, t, k, f, nv, content, true, db.next_id⟩
      (UpdResult.updated ns, ⟨flipped ++ [ns], db.next_id + 1⟩)

/-- Service delete_section_version: removes the matched row (False when
nothing matches); when the removed row was current, the remaining row of
the chain with the greatest created_at — the query runs after the delete is
flushed — has its flag set to true. -/
def delete_section_version (db : DB) (uid : Nat) (t k f : String) (v : List Char) :
    Bool × DB :=
  match get_section_by_version db uid t k f v with
  | none => (false, db)
  | some sec =>
    let remaining := db.sections.eraseP (fun s => s.id == sec.id)
    if sec.is_current then
      match latestCreated (remaining.filter (sameChain uid t k f)) with
      | some l =>
        (true, ⟨remaining.map (fun s => if s.id == l.id then setCurFlag true s else s),
          db.next_id⟩)
      | none => (true, ⟨remaining, db.next_id⟩)
    else (true, ⟨remaining, db.next_id⟩)

/-- A completed store mutation, as issued through the HTTP handlers. -/
inductive Op where
  | put (uid : Nat) (t k f : String) (content : Payload)
  | update (uid : Nat) (t k f : String) (content : Payload)
  | deleteVersion (uid : Nat) (t k f : String) (v : List Char)

/-- State after one completed operation (failed operations persist
nothing, so they leave the state unchanged). -/
def applyOp (db : DB) : Op → DB
  | Op.put uid t k f c => (put_section db uid t k f c).2
  | Op.update uid t k f c => (update_section db uid t k f c).2
  | Op.deleteVersion uid t k f v => (delete_section_version db uid t k f v).2

/-- State after a completed sequence of operations. -/
def applyOps (ops : List Op) (db : DB) : DB := ops.foldl applyOp db

/-- The store before any operation. -/
def emptyDB : DB := ⟨[], 0⟩

/-- Claim C1 invariant: at most one row of any chain carries the current
flag. -/
def AtMostOneCurrent (db : DB) : Prop :=
  ∀ uid t k f, db.sections.countP (curInChain uid t k f) ≤ 1

/-- Inductive store invariant: ids are distinct, below the counter, and
each chain has at most one current row. -/
def GoodDB (db : DB) : Prop :=
  (db.sections.map Section.id).Nodup ∧
  (∀ s ∈ db.sections, s.id < db.next_id) ∧
  AtMostOneCurrent db

/-! ## List lemmas supporting the store invariant -/

theorem setCurFlag_id (b : Bool) (s : Section) : (setCurFlag b s).id = s.id := rfl

theorem sameChain_setCurFlag (b : Bool) (uid : Nat) (t k f : String) (s : Section) :
    sameChain uid t k f (setCurFlag b s) = sameChain uid t k f s := rfl

theorem two_le_countP {α : Type} (p : α → Bool) :
    ∀ (L : List α) (a b : α), a ∈ L → b ∈ L → a ≠ b → p a = true → p b = true →
      2 ≤ L.countP p := by
  intro L
  induction L with
  | nil => intro a b ha; simp at ha
  | cons c rest ih =>
    intro a b ha hb hne hpa hpb
    rcases List.mem_cons.mp ha with rfl | ha'
    · have hb' : b ∈ rest := by
        rcases List.mem_cons.mp hb with rfl | h
        · exact absurd rfl hne
        · exact h
      have h1 : 0 < rest.countP p := List.countP_pos_iff.mpr ⟨b, hb', hpb⟩
      rw [List.countP_cons, if_pos hpa]
      omega
    · rcases List.mem_cons.mp hb with rfl | hb'
      · have h1 : 0 < rest.countP p := List.countP_pos_iff.mpr ⟨a, ha', hpa⟩
        rw [List.countP_cons, if_pos hpb]
        omega
      · have h2 := ih a b ha' hb' hne hpa hpb
        rw [List.countP_cons]
        by_cases hc : p c = true
        · rw [if_pos hc]; omega
        · rw [if_neg hc]; omega

theorem countP_id_le_one {L : List Section} (h : (L.map Section.id).Nodup) (i : Nat) :
    L.countP (fun s => s.id == i) ≤ 1 := by
  induction L with
  | nil => simp
  | cons s rest ih =>
    rw [List.map_cons] at h
    have h1 := List.nodup_cons.mp h
    by_cases hs : s.id = i
    · have hz : rest.countP (fun s => s.id == i) = 0 := by
        rw [List.countP_eq_zero]
        intro a ha hpa
        apply h1.1
        have h2 : a.id = i := by simpa using hpa
        have h3 : a.id = s.id := by rw [h2, hs]
        rw [← h3]
        exact List.mem_map_of_mem _ ha
      simp [List.countP_cons, hs, hz]
    · simp only [List.countP_cons, beq_iff_eq, hs, if_false]
      simpa using ih h1.2

theorem countP_or_le {α : Type} (a b : α → Bool) (L : List α) :
    L.countP (fun x => a x || b x) ≤ L.countP a + L.countP b := by
  induction L with
  | nil => simp
  | cons c rest ih =>
    by_cases ha : a c = true <;> by_cases hb : b c = true <;>
      simp [List.countP_cons, ha, hb] <;> omega

theorem flip_false_le (uid : Nat) (t k f : String) (i : Nat) (L : List Section) :
    (L.map (fun s => if s.id == i then setCurFlag false s else s)).countP
        (curInChain uid t k f)
      ≤ L.countP (curInChain uid t k f) := by
  rw [List.countP_map]
  apply List.countP_mono_left
  intro s _ hp
  simp only [Function.comp] at hp
  by_cases hid : s.id == i
  · simp [hid, curInChain, setCurFlag] at hp
  · simpa [hid] using hp

theorem flip_false_zero (uid : Nat) (t k f : String) (x : Section) (L : List Section)
    (hone : L.countP (curInChain uid t k f) ≤ 1) (hx : x ∈ L)
    (hpx : curInChain uid t k f x = true) :
    (L.map (fun s => if s.id == x.id then setCurFlag false s else s)).countP
      (curInChain uid t k f) = 0 := by
  rw [List.countP_map, List.countP_eq_zero]
  intro a ha hpa
  simp only [Function.comp] at hpa
  by_cases hid : a.id == x.id
  · simp [hid, curInChain, setCurFlag] at hpa
  · have hpa' : curInChain uid t k f a = true := by simpa [hid] using hpa
    have hne : a ≠ x := by
      intro he
      rw [he] at hid
      simp at hid
    have h2 := two_le_countP (curInChain uid t k f) L a x ha hx hne hpa' hpx
    omega

theorem set_true_le (uid : Nat) (t k f : String) (i : Nat) (L : List Section) :
    (L.map (fun s => if s.id == i then setCurFlag true s else s)).countP
        (curInChain uid t k f)
      ≤ L.countP (fun s => s.id == i && sameChain uid t k f s)
        + L.countP (curInChain uid t k f) := by
  rw [List.countP_map]
  calc (L.countP (curInChain uid t k f ∘ fun s => if s.id == i then setCurFlag true s else s))
      ≤ L.countP (fun s => (s.id == i && sameChain uid t k f s) || curInChain uid t k f s) := by
        apply List.countP_mono_left
        intro s _ hp
        simp only [Function.comp] at hp
        by_cases hid : s.id == i
        · have hs : sameChain uid t k f s = true := by
            simpa [hid, curInChain, setCurFlag] using hp
          simp [hid, hs]
        · have hs : curInChain uid t k f s = true := by simpa [hid] using hp
          simp [hs]
    _ ≤ _ := countP_or_le _ _ _

theorem countP_id_chain_zero (uid : Nat) (t k f : String) (L : List Section)
    (h : (L.map Section.id).Nodup) (l : Section) (hl : l ∈ L)
    (hc : sameChain uid t k f l = false) :
    L.countP (fun s => s.id == l.id && sameChain uid t k f s) = 0 := by
  rw [List.countP_eq_zero]
  intro a ha hpa
  simp only [Bool.and_eq_true, beq_iff_eq] at hpa
  have hae : a = l := List.inj_on_of_nodup_map h ha hl hpa.1
  rw [hae, hc] at hpa
  exact absurd hpa.2 (by simp)

/-- Unfolds the chain-current test on an explicitly constructed row. -/
theorem curInChain_mk (uid' uid : Nat) (t' k' f' t k f : String) (i : Nat)
    (v : List Char) (c : Payload) (b : Bool) (ca : Nat) :
    curInChain uid' t' k' f' ⟨i, uid, t, k, f, v, c, b, ca⟩
      = (uid == uid' && (t == t') && (k == k') && (f == f') && b) := rfl

theorem nodup_snoc (l : List Nat) (n : Nat) (hnd : l.Nodup) (hlt : ∀ x ∈ l, x < n) :
    (l ++ [n]).Nodup := by
  rw [List.nodup_append]
  refine ⟨hnd, by simp, ?_⟩
  intro x hx hx2
  simp at hx2
  subst hx2
  have := hlt _ hx
  omega

theorem goodDB_put (db : DB) (h : GoodDB db) (uid : Nat) (t k f : String) (c : Payload) :
    GoodDB (put_section db uid t k f c).2 := by
  obtain ⟨hnd, hlt, hone⟩ := h
  cases hcur : get_current_section db uid t k f with
  | some s =>
    simp only [put_section, hcur]
    exact ⟨hnd, hlt, hone⟩
  | none =>
    simp only [put_section, hcur, create_section]
    refine ⟨?_, ?_, ?_⟩
    · rw [List.map_append]
      exact nodup_snoc _ _ hnd (fun x hx => by
        obtain ⟨s, hs, rfl⟩ := List.mem_map.mp hx
        exact hlt s hs)
    · intro s hs
      rcases List.mem_append.mp hs with h1 | h1
      · exact Nat.lt_succ_of_lt (hlt s h1)
      · simp at h1; subst h1; exact Nat.lt_succ_self _
    · intro uid' t' k' f'
      rw [List.countP_append, List.countP_cons, List.countP_nil, curInChain_mk]
      cases hp : (uid == uid' && (t == t') && (k == k') && (f == f') && true) with
      | false =>
        simp only [Bool.false_eq_true, if_false]
        simpa using hone uid' t' k' f'
      | true =>
        simp only [Bool.and_eq_true, beq_iff_eq] at hp
        obtain ⟨⟨⟨⟨e1, e2⟩, e3⟩, e4⟩, _⟩ := hp
        subst e1; subst e2; subst e3; subst e4
        have hz : db.sections.countP (curInChain uid t k f) = 0 := by
          rw [List.countP_eq_zero]
          intro a ha hpa
          exact (List.find?_eq_none.mp hcur a ha) hpa
        rw [hz]
        simp

theorem goodDB_update (db : DB) (h : GoodDB db) (uid : Nat) (t k f : String) (c : Payload) :
    GoodDB (update_section db uid t k f c).2 := by
  obtain ⟨hnd, hlt, hone⟩ := h
  cases hcur : get_current_section db uid t k f with
  | none =>
    simp only [update_section, hcur]
    exact ⟨hnd, hlt, hone⟩
  | some cur =>
    have hcur_mem : cur ∈ db.sections := List.mem_of_find?_eq_some hcur
    have hcur_p : curInChain uid t k f cur = true := List.find?_some hcur
    cases hnv : get_next_version cur.version with
    | none =>
      simp only [update_section, hcur, hnv]
      exact ⟨hnd, hlt, hone⟩
    | some nv =>
      simp only [update_section, hcur, hnv]
      have hfun : (Section.id ∘ fun s => if s.id == cur.id then setCurFlag false s else s)
          = Section.id := by
        funext s
        by_cases hid : s.id == cur.id <;> simp [Function.comp, hid, setCurFlag]
      refine ⟨?_, ?_, ?_⟩
      · rw [List.map_append, List.map_map, hfun]
        exact nodup_snoc _ _ hnd (fun x hx => by
          obtain ⟨s, hs, rfl⟩ := List.mem_map.mp hx
          exact hlt s hs)
      · intro s hs
        rcases List.mem_append.mp hs with h1 | h1
        · obtain ⟨s0, hs0, rfl⟩ := List.mem_map.mp h1
          have hb := hlt s0 hs0
          by_cases hid : s0.id == cur.id <;> simp [hid, setCurFlag] <;> omega
        · simp at h1; subst h1; exact Nat.lt_succ_self _
      · intro uid' t' k' f'
        rw [List.countP_append, List.countP_cons, List.countP_nil, curInChain_mk]
        cases hp : (uid == uid' && (t == t') && (k == k') && (f == f') && true) with
        | false =>
          simp only [Bool.false_eq_true, if_false]
          have hle := flip_false_le uid' t' k' f' cur.id db.sections
          have hb := hone uid' t' k' f'
          omega
        | true =>
          simp only [Bool.and_eq_true, beq_iff_eq] at hp
          obtain ⟨⟨⟨⟨e1, e2⟩, e3⟩, e4⟩, _⟩ := hp
          subst e1; subst e2; subst e3; subst e4
          have hz := flip_false_zero uid t k f cur db.sections (hone uid t k f)
            hcur_mem hcur_p
          rw [hz]
          simp

theorem latestCreated_eq_none : ∀ L : List Section, latestCreated L = none → L = [] := by
  intro L h
  cases L with
  | nil => rfl
  | cons s rest =>
    rw [latestCreated] at h
    cases hr : latestCreated rest <;> rw [hr] at h <;> exact absurd h (by simp)

theorem latestCreated_mem : ∀ (L : List Section) (l : Section),
    latestCreated L = some l → l ∈ L := by
  intro L
  induction L with
  | nil => intro l h; simp [latestCreated] at h
  | cons s rest ih =>
    intro l h
    rw [latestCreated] at h
    cases hr : latestCreated rest with
    | none =>
      rw [hr] at h
      have h2 := Option.some.inj h
      subst h2
      exact List.mem_cons_self _ _
    | some m =>
      rw [hr] at h
      have h2 := Option.some.inj h
      by_cases hcmp : m.created_at > s.created_at
      · rw [if_pos hcmp] at h2
        subst h2
        exact List.mem_cons_of_mem _ (ih _ hr)
      · rw [if_neg hcmp] at h2
        subst h2
        exact List.mem_cons_self _ _

theorem latestCreated_max : ∀ (L : List Section) (l : Section),
    latestCreated L = some l → ∀ s ∈ L, s.created_at ≤ l.created_at := by
  intro L
  induction L with
  | nil => intro l h; simp [latestCreated] at h
  | cons s rest ih =>
    intro l h x hx
    rw [latestCreated] at h
    cases hr : latestCreated rest with
    | none =>
      rw [hr] at h
      have h2 := Option.some.inj h
      subst h2
      have hrest : rest = [] := latestCreated_eq_none _ hr
      subst hrest
      simp at hx
      subst hx
      exact le_refl _
    | some m =>
      rw [hr] at h
      have h2 := Option.some.inj h
      rcases List.mem_cons.mp hx with rfl | hx'
      · by_cases hcmp : m.created_at > x.created_at
        · rw [if_pos hcmp] at h2; subst h2; omega
        · rw [if_neg hcmp] at h2; subst h2; exact le_refl _
      · have hm := ih _ hr x hx'
        by_cases hcmp : m.created_at > s.created_at
        · rw [if_pos hcmp] at h2; subst h2; exact hm
        · rw [if_neg hcmp] at h2; subst h2; omega

theorem goodDB_delete (db : DB) (h : GoodDB db) (uid : Nat) (t k f : String)
    (v : List Char) : GoodDB (delete_section_version db uid t k f v).2 := by
  obtain ⟨hnd, hlt, hone⟩ := h
  cases hdel : get_section_by_version db uid t k f v with
  | none =>
    simp only [delete_section_version, hdel]
    exact ⟨hnd, hlt, hone⟩
  | some sec =>
    have hsec_mem : sec ∈ db.sections := List.mem_of_find?_eq_some hdel
    have hsec_p : sameChain uid t k f sec = true ∧ (sec.version == v) = true := by
      simpa using List.find?_some hdel
    have hsub : List.Sublist (db.sections.eraseP (fun s => s.id == sec.id)) db.sections :=
      List.eraseP_sublist _
    have hnd_rem : ((db.sections.eraseP (fun s => s.id == sec.id)).map Section.id).Nodup :=
      hnd.sublist (hsub.map _)
    have hlt_rem : ∀ s ∈ db.sections.eraseP (fun s => s.id == sec.id), s.id < db.next_id :=
      fun s hs => hlt s (hsub.subset hs)
    have hcount_rem : ∀ uid' t' k' f',
        (db.sections.eraseP (fun s => s.id == sec.id)).countP (curInChain uid' t' k' f') ≤ 1 :=
      fun uid' t' k' f' => le_trans (hsub.countP_le _) (hone uid' t' k' f')
    cases hc : sec.is_current with
    | false =>
      simp only [delete_section_version, hdel, hc, Bool.false_eq_true, if_false]
      exact ⟨hnd_rem, hlt_rem, hcount_rem⟩
    | true =>
      cases hlat : latestCreated
          ((db.sections.eraseP (fun s => s.id == sec.id)).filter (sameChain uid t k f)) with
      | none =>
        simp only [delete_section_version, hdel, hc, if_true, hlat]
        exact ⟨hnd_rem, hlt_rem, hcount_rem⟩
      | some l =>
        simp only [delete_section_version, hdel, hc, if_true, hlat]
        have hl_mem_f := latestCreated_mem _ _ hlat
        have hl_mem : l ∈ db.sections.eraseP (fun s => s.id == sec.id) :=
          List.mem_of_mem_filter hl_mem_f
        have hl_chain : sameChain uid t k f l = true := List.of_mem_filter hl_mem_f
        have hfun : (Section.id ∘ fun s => if s.id == l.id then setCurFlag true s else s)
            = Section.id := by
          funext s
          by_cases hid : s.id == l.id <;> simp [Function.comp, hid, setCurFlag]
        -- the chain of the deleted current row has no current row left
        have hzero : (db.sections.eraseP (fun s => s.id == sec.id)).countP
            (curInChain uid t k f) = 0 := by
          obtain ⟨a', l₁, l₂, hnl₁, hpa', hLeq, hremEq⟩ :=
            @List.exists_of_eraseP Section (fun s => s.id == sec.id) db.sections sec
              hsec_mem (by simp)
          have ha'_mem : a' ∈ db.sections := by
            rw [hLeq]; exact List.mem_append_right _ (List.mem_cons_self _ _)
          have ha'_id : a'.id = sec.id := by simpa using hpa'
          have ha'_eq : a' = sec := List.inj_on_of_nodup_map hnd ha'_mem hsec_mem ha'_id
          have hsec_cur : curInChain uid t k f sec = true := by
            simp [curInChain, hsec_p.1, hc]
          have hcnt : db.sections.countP (curInChain uid t k f)
              = l₁.countP (curInChain uid t k f) + 1 + l₂.countP (curInChain uid t k f) := by
            rw [hLeq, List.countP_append, List.countP_cons, ha'_eq, hsec_cur]
            simp
            omega
          have hb := hone uid t k f
          rw [hremEq, List.countP_append]
          omega
        refine ⟨?_, ?_, ?_⟩
        · rw [List.map_map, hfun]
          exact hnd_rem
        · intro s hs
          obtain ⟨s0, hs0, rfl⟩ := List.mem_map.mp hs
          have hb := hlt_rem s0 hs0
          by_cases hid : s0.id == l.id <;> simp [hid, setCurFlag] <;> omega
        intro uid' t' k' f'
        show (List.map (fun s => if s.id == l.id then setCurFlag true s else s)
            (db.sections.eraseP (fun s => s.id == sec.id))).countP
            (curInChain uid' t' k' f') ≤ 1
        by_cases hchain : sameChain uid' t' k' f' l = true
        · -- both chains contain the promoted row, so the chains coincide
          have hl1 := hl_chain
          have hl2 := hchain
          simp only [sameChain, Bool.and_eq_true, beq_iff_eq] at hl1 hl2
          obtain ⟨⟨⟨a1, a2⟩, a3⟩, a4⟩ := hl1
          obtain ⟨⟨⟨b1, b2⟩, b3⟩, b4⟩ := hl2
          have e1 : uid = uid' := by rw [← a1]; exact b1
          have e2 : t = t' := by rw [← a2]; exact b2
          have e3 : k = k' := by rw [← a3]; exact b3
          have e4 : f = f' := by rw [← a4]; exact b4
          subst e1; subst e2; subst e3; subst e4
          have hle := set_true_le uid t k f l.id (db.sections.eraseP (fun s => s.id == sec.id))
          have hid_le : (db.sections.eraseP (fun s => s.id == sec.id)).countP
              (fun s => s.id == l.id && sameChain uid t k f s) ≤ 1 := by
            refine le_trans (List.countP_mono_left ?_) (countP_id_le_one hnd_rem l.id)
            intro s _ hp
            have hp2 : (s.id == l.id) = true ∧ sameChain uid t k f s = true := by
              simpa using hp
            exact hp2.1
          omega
        · have hz := countP_id_chain_zero uid' t' k' f' _ hnd_rem l hl_mem
            (by cases hx : sameChain uid' t' k' f' l
                · rfl
                · exact absurd hx hchain)
          have hle := set_true_le uid' t' k' f' l.id
            (db.sections.eraseP (fun s => s.id == sec.id))
          have hb := hcount_rem uid' t' k' f'
          omega

/-- Preservation of the store invariant by any completed operation. -/
theorem goodDB_applyOp (db : DB) (h : GoodDB db) (op : Op) : GoodDB (applyOp db op) := by
  cases op with
  | put uid t k f c => exact goodDB_put db h uid t k f c
  | update uid t k f c => exact goodDB_update db h uid t k f c
  | deleteVersion uid t k f v => exact goodDB_delete db h uid t k f v

theorem goodDB_empty : GoodDB emptyDB := by
  refine ⟨by simp [emptyDB], by simp [emptyDB], ?_⟩
  intro uid t k f
  simp [emptyDB]

theorem goodDB_applyOps (ops : List Op) : ∀ db : DB, GoodDB db → GoodDB (applyOps ops db) := by
  induction ops with
  | nil => intro db h; exact h
  | cons op ops ih =>
    intro db h
    exact ih (applyOp db op) (goodDB_applyOp db h op)

/-- Claim C1: after any completed sequence of create, update and
delete-version operations starting from the empty store, every chain
(owner, type, key, flavor) has at most one row whose current flag is set. -/
theorem at_most_one_current_after_ops (ops : List Op) :
    AtMostOneCurrent (applyOps ops emptyDB) :=
  (goodDB_applyOps ops emptyDB goodDB_empty).2.2

theorem latestCreated_of_ne_nil (L : List Section) (h : L ≠ []) :
    ∃ l, latestCreated L = some l := by
  cases L with
  | nil => exact absurd rfl h
  | cons s rest =>
    cases hr : latestCreated rest with
    | none => exact ⟨s, by rw [latestCreated, hr]⟩
    | some m =>
      exact ⟨if m.created_at > s.created_at then m else s, by rw [latestCreated, hr]⟩

theorem map_id_eraseP (L : List Section) (i : Nat) :
    (L.eraseP (fun s => s.id == i)).map Section.id = (L.map Section.id).erase i := by
  rw [List.erase_eq_eraseP', List.eraseP_map]
  rfl

/-- After erasing the unique current row of a chain, the chain has no
current row left. -/
theorem erase_self_countP_zero (L : List Section) (uid : Nat) (t k f : String)
    (sec : Section) (hnd : (L.map Section.id).Nodup)
    (hone : L.countP (curInChain uid t k f) ≤ 1) (hmem : sec ∈ L)
    (hcur : curInChain uid t k f sec = true) :
    (L.eraseP (fun s => s.id == sec.id)).countP (curInChain uid t k f) = 0 := by
  obtain ⟨a', l₁, l₂, hnl₁, hpa', hLeq, hremEq⟩ :=
    @List.exists_of_eraseP Section (fun s => s.id == sec.id) L sec hmem (by simp)
  have ha'_mem : a' ∈ L := by
    rw [hLeq]; exact List.mem_append_right _ (List.mem_cons_self _ _)
  have ha'_id : a'.id = sec.id := by simpa using hpa'
  have ha'_eq : a' = sec := List.inj_on_of_nodup_map hnd ha'_mem hmem ha'_id
  have hcnt : L.countP (curInChain uid t k f)
      = l₁.countP (curInChain uid t k f) + 1 + l₂.countP (curInChain uid t k f) := by
    rw [hLeq, List.countP_append, List.countP_cons, ha'_eq, hcur]
    simp
    omega
  rw [hremEq, List.countP_append]
  omega

/-- Promoting the chosen row in a chain with no current row yields that row
as the one and only current row of the chain. -/
theorem filter_map_setTrue (uid : Nat) (t k f : String) (l : Section) :
    ∀ R : List Section, (R.map Section.id).Nodup → l ∈ R →
      sameChain uid t k f l = true →
      (∀ s ∈ R, curInChain uid t k f s = false) →
      (R.map (fun s => if s.id == l.id then setCurFlag true s else s)).filter
        (curInChain uid t k f) = [setCurFlag true l] := by
  intro R
  induction R with
  | nil => intro _ hl; cases hl
  | cons a R ih =>
    intro hnd hl hchain hnone
    rw [List.map_cons] at hnd
    have hnd2 := List.nodup_cons.mp hnd
    rcases List.mem_cons.mp hl with rfl | hlR
    · have hcur : curInChain uid t k f (setCurFlag true l) = true := by
        simp [curInChain, setCurFlag] at hchain ⊢
        exact hchain
      rw [List.map_cons, if_pos (by simp), List.filter_cons, if_pos hcur]
      have hrest : (R.map (fun s => if s.id == l.id then setCurFlag true s else s)).filter
          (curInChain uid t k f) = [] := by
        rw [List.filter_eq_nil_iff]
        intro x hx
        obtain ⟨s, hs, rfl⟩ := List.mem_map.mp hx
        have hsid : s.id ≠ l.id := by
          intro he
          exact hnd2.1 (he ▸ List.mem_map_of_mem Section.id hs)
        rw [if_neg (by simpa using hsid)]
        have hn := hnone s (List.mem_cons_of_mem _ hs)
        simp [hn]
      rw [hrest]
    · have haid : a.id ≠ l.id := by
        intro he
        exact hnd2.1 (he ▸ List.mem_map_of_mem Section.id hlR)
      have ha_false : curInChain uid t k f a = false := hnone a (List.mem_cons_self _ _)
      rw [List.map_cons, if_neg (by simpa using haid), List.filter_cons,
        if_neg (by simp [ha_false])]
      exact ih hnd2.2 hlR hchain (fun s hs => hnone s (List.mem_cons_of_mem _ hs))

/-- Claim C5: delete_section_version returns false and changes nothing when
no row matches; otherwise it reports success and removes exactly the
matched row.  When the removed row was current and rows of the chain
remain, the remaining row with the greatest creation time is promoted and
becomes the unique current row of the chain; when the removed row was the
sole member of its chain, the chain is left empty (hence with no current
row).  Stated over stores with distinct row ids and at most one current row
in the touched chain, which holds for every reachable store state. -/
theorem delete_version_spec (db : DB) (uid : Nat) (t k f : String) (v : List Char)
    (hnd : (db.sections.map Section.id).Nodup)
    (hone : db.sections.countP (curInChain uid t k f) ≤ 1) :
    (get_section_by_version db uid t k f v = none →
      delete_section_version db uid t k f v = (false, db)) ∧
    (∀ sec, get_section_by_version db uid t k f v = some sec →
      (delete_section_version db uid t k f v).1 = true ∧
      (delete_section_version db uid t k f v).2.sections.map Section.id
        = (db.sections.map Section.id).erase sec.id ∧
      (sec.is_current = true →
        (db.sections.eraseP (fun s => s.id == sec.id)).filter (sameChain uid t k f) ≠ [] →
        ∃ l, latestCreated ((db.sections.eraseP (fun s => s.id == sec.id)).filter
              (sameChain uid t k f)) = some l ∧
          l ∈ (db.sections.eraseP (fun s => s.id == sec.id)).filter (sameChain uid t k f) ∧
          (∀ x ∈ (db.sections.eraseP (fun s => s.id == sec.id)).filter (sameChain uid t k f),
            x.created_at ≤ l.created_at) ∧
          (delete_section_version db uid t k f v).2.sections.filter (curInChain uid t k f)
            = [setCurFlag true l]) ∧
      (sec.is_current = true →
        (db.sections.eraseP (fun s => s.id == sec.id)).filter (sameChain uid t k f) = [] →
        (delete_section_version db uid t k f v).2.sections.filter (sameChain uid t k f)
          = [])) := by
  constructor
  · intro hdel
    simp only [delete_section_version, hdel]
  · intro sec hdel
    have hsec_mem : sec ∈ db.sections := List.mem_of_find?_eq_some hdel
    have hsec_p : sameChain uid t k f sec = true ∧ (sec.version == v) = true := by
      simpa using List.find?_some hdel
    cases hc : sec.is_current with
    | false =>
      simp only [delete_section_version, hdel, hc, Bool.false_eq_true, if_false]
      refine ⟨trivial, map_id_eraseP _ _, ?_, ?_⟩
      · intro hcc; exact absurd hcc (by simp)
      · intro hcc; exact absurd hcc (by simp)
    | true =>
      have hsec_cur : curInChain uid t k f sec = true := by
        simp [curInChain, hsec_p.1, hc]
      have hnone : ∀ s ∈ db.sections.eraseP (fun s => s.id == sec.id),
          curInChain uid t k f s = false := by
        intro s hs
        have hz := erase_self_countP_zero db.sections uid t k f sec hnd hone hsec_mem hsec_cur
        have hnot := List.countP_eq_zero.mp hz s hs
        cases hx : curInChain uid t k f s
        · rfl
        · exact absurd hx hnot
      cases hlat : latestCreated ((db.sections.eraseP (fun s => s.id == sec.id)).filter
          (sameChain uid t k f)) with
      | none =>
        simp only [delete_section_version, hdel, hc, if_true, hlat]
        refine ⟨trivial, map_id_eraseP _ _, ?_, ?_⟩
        · intro _ hne
          exact absurd (latestCreated_eq_none _ hlat) hne
        · intro _ hemp
          exact hemp
      | some l =>
        simp only [delete_section_version, hdel, hc, if_true, hlat]
        have hl_mem_f := latestCreated_mem _ _ hlat
        have hl_mem : l ∈ db.sections.eraseP (fun s => s.id == sec.id) :=
          List.mem_of_mem_filter hl_mem_f
        have hl_chain : sameChain uid t k f l = true := List.of_mem_filter hl_mem_f
        have hnd_rem : ((db.sections.eraseP (fun s => s.id == sec.id)).map Section.id).Nodup :=
          hnd.sublist ((List.eraseP_sublist _).map _)
        have hfun : (Section.id ∘ fun s => if s.id == l.id then setCurFlag true s else s)
            = Section.id := by
          funext s
          by_cases hid : s.id == l.id <;> simp [Function.comp, hid, setCurFlag]
        refine ⟨trivial, ?_, ?_, ?_⟩
        · rw [List.map_map, hfun, map_id_eraseP]
        · intro _ _
          exact ⟨l, rfl, hl_mem_f, latestCreated_max _ _ hlat,
            filter_map_setTrue uid t k f l _ hnd_rem hl_mem hl_chain hnone⟩
        · intro _ hemp
          rw [hemp] at hlat
          exact absurd hlat (by simp [latestCreated])

/-- Claim C6: the create handler rejects with AlreadyExists and persists
nothing exactly when the chain already has a current row, and otherwise
persists version 1.0 with the current flag set; the update service reports
NotFound and persists nothing exactly when the chain has no current row,
and otherwise flips the existing current row to non-current and inserts the
incremented version as the new current row.  The hypothesis that the stored
current version is well formed holds for every reachable store state, where
versions are only ever produced by create (1.0) and by the incrementer. -/
theorem put_update_error_handling (db : DB) (uid : Nat) (t k f : String) (c : Payload)
    (hwf : ∀ cur, get_current_section db uid t k f = some cur →
      (get_next_version cur.version).isSome) :
    (∀ cur, get_current_section db uid t k f = some cur →
      put_section db uid t k f c = (PutResult.alreadyExists, db)) ∧
    (get_current_section db uid t k f = none →
      put_section db uid t k f c =
        (PutResult.created ⟨db.next_id, uid, t, k, f, S "1.0", c, true, db.next_id⟩,
         ⟨db.sections ++ [⟨db.next_id, uid, t, k, f, S "1.0", c, true, db.next_id⟩],
          db.next_id + 1⟩)) ∧
    (get_current_section db uid t k f = none →
      update_section db uid t k f c = (UpdResult.notFound, db)) ∧
    (∀ cur, get_current_section db uid t k f = some cur →
      ∃ nv, get_next_version cur.version = some nv ∧
        update_section db uid t k f c =
          (UpdResult.updated ⟨db.next_id, uid, t, k, f, nv, c, true, db.next_id⟩,
           ⟨db.sections.map (fun s => if s.id == cur.id then setCurFlag false s else s)
              ++ [⟨db.next_id, uid, t, k, f, nv, c, true, db.next_id⟩],
            db.next_id + 1⟩)) := by
  refine ⟨?_, ?_, ?_, ?_⟩
  · intro cur hcur
    simp only [put_section, hcur]
  · intro hcur
    simp only [put_section, hcur, create_section]
  · intro hcur
    simp only [update_section, hcur]
  · intro cur hcur
    obtain ⟨nv, hnv⟩ := Option.isSome_iff_exists.mp (hwf cur hcur)
    refine ⟨nv, hnv, ?_⟩
    simp only [update_section, hcur, hnv]

/-! Concrete store fixtures used by the witnesses. -/

/-- Sample payload. -/
def payA : Payload := Payload.pdict [("title", Payload.pstr "Engineer")]

/-- An older, non-current version of a chain. -/
def secA : Section := ⟨0, 7, "experience", "amazon", "systems", S "1.0", payA, false, 0⟩

/-- The current version of the same chain. -/
def secB : Section := ⟨1, 7, "experience", "amazon", "systems", S "1.1", payA, true, 1⟩

/-- A two-row store holding one chain with versions 1.0 and 1.1. -/
def dbAB : DB := ⟨[secA, secB], 2⟩

/-- Claim C5 witness: deleting the current version 1.1 of the two-row chain
promotes the remaining row 1.0, which becomes the unique current row. -/
theorem delete_version_spec_witness :
    (delete_section_version dbAB 7 "experience" "amazon" "systems" (S "1.1")).2.sections.filter
        (curInChain 7 "experience" "amazon" "systems") = [setCurFlag true secA] := by
  obtain ⟨l, hl1, -, -, hl4⟩ :=
    ((delete_version_spec dbAB 7 "experience" "amazon" "systems" (S "1.1") (by decide)
        (by decide)).2 secB rfl).2.2.1 rfl (List.cons_ne_nil _ _)
  have h5 : (some secA : Option Section) = some l := by
    rw [← hl1]
    rfl
  rw [← Option.some.inj h5] at hl4
  exact hl4

/-- Claim C6 witness: creating over an existing current chain is rejected
with the store unchanged, and updating an empty store reports NotFound with
the store unchanged. -/
theorem put_update_error_handling_witness :
    put_section dbAB 7 "experience" "amazon" "systems" payA
        = (PutResult.alreadyExists, dbAB) ∧
    update_section emptyDB 7 "experience" "amazon" "systems" payA
        = (UpdResult.notFound, emptyDB) := by
  constructor
  · refine (put_update_error_handling dbAB 7 "experience" "amazon" "systems" payA ?_).1 secB rfl
    intro cur h
    have h2 : (some secB : Option Section) = some cur := by
      rw [← h]
      rfl
    rw [← Option.some.inj h2]
    rfl
  · exact (put_update_error_handling emptyDB 7 "experience" "amazon" "systems" payA
      (fun cur h => nomatch h)).2.2.1 rfl

/-! ## Composition resolver and LaTeX generators
(src/app/services/generator_service.py, src/app/utils/latex.py) -/

/-- The single-quote character, written by codepoint. -/
def qm : Char := Char.ofNat 39

mutual

/-- Python repr of a payload value; str() falls back to it for containers.
Quote-escaping subtleties of repr never arise in rendered payloads and are
not modelled beyond plain quoting. -/
def reprOf : Payload → List Char
  | Payload.pstr s => qm :: s.data ++ [qm]
  | Payload.plist l => '[' :: joinWith (S ", ") (reprList l) ++ [']']
  | Payload.pdict l => lb :: joinWith (S ", ") (reprEntries l) ++ [rb]

/-- Reprs of the items of a list payload. -/
def reprList : List Payload → List (List Char)
  | [] => []
  | p :: ps => reprOf p :: reprList ps

/-- Reprs of the entries of a dictionary payload. -/
def reprEntries : List (String × Payload) → List (List Char)
  | [] => []
  | kv :: ps => (qm :: kv.1.data ++ qm :: ':' :: ' ' :: reprOf kv.2) :: reprEntries ps

end

/-- Python str of a payload value: strings pass through, containers use
their repr. -/
def strOf : Payload → List Char
  | Payload.pstr s => s.data
  | p => reprOf p

/-- Python str applied to each item of a list. -/
def strOfList (l : List Payload) : List (List Char) := l.map strOf

/-- Python escape_latex applied to an arbitrary value: the falsy guard
returns the empty string, a list is joined with comma-space, anything else
is stringified, and the result is escaped. -/
def escape_val : Option Payload → List Char
  | none => []
  | some p =>
    if truthyP p = false then []
    else
      match p with
      | Payload.plist l => escape_latex (joinWith (S ", ") (strOfList l))
      | _ => escape_latex (strOf p)

/-- Python process_bullet applied to an arbitrary value: the falsy guard
returns the empty string and other values are stringified first.  none
models a run of the scanning loop that never terminates. -/
def process_bullet_val : Option Payload → Option (List Char)
  | none => some []
  | some p =>
    if truthyP p = false then some []
    else process_bullet (strOf p)

/-- Python dict.get on an entry list (first matching key). -/
def pget (entries : List (String × Payload)) (k : String) : Option Payload :=
  (entries.find? (fun kv => kv.1 == k)).map (fun kv => kv.2)

/-- Python value.get(key) for a payload known to be a dictionary; a
non-dictionary value would raise in Python and never reaches this call in
the pipeline. -/
def dictGet : Payload → String → Option Payload
  | Payload.pdict entries, k => pget entries k
  | _, _ => none

/-- Python x or y on values: the first operand when truthy, else the
second. -/
def pyOr (a b : Option Payload) : Option Payload :=
  match a with
  | some p => if truthyP p then some p else b
  | none => b

/-- Concatenation of a list of strings. -/
def concatAll : List (List Char) → List Char
  | [] => []
  | x :: xs => x ++ concatAll xs

/-- The bullets field of an entry; rendered payloads store a list, and the
Python default for a missing key is the empty list. -/
def bulletsOf (entry : Payload) : List Payload :=
  match dictGet entry "bullets" with
  | some (Payload.plist l) => l
  | _ => []

/-- Runs process_bullet over each bullet in order, stopping (none) at the
first bullet whose scan never terminates, as the Python loop would. -/
def processBullets : List Payload → Option (List (List Char))
  | [] => some []
  | b :: bs =>
    match process_bullet_val (some b) with
    | none => none
    | some t =>
      match processBullets bs with
      | none => none
      | some ts => some (t :: ts)

/-- One resumeItem line of a bulleted list. -/
def itemLine (t : List Char) : List Char :=
  S "    \\resumeItem" ++ [lb] ++ t ++ [rb] ++ S "\n"

/-- The bulleted-list block shared by experience and project entries. -/
def itemBlock (ts : List (List Char)) : List Char :=
  S "\\resumeItemListStart\n" ++ concatAll (ts.map itemLine) ++ S "\\resumeItemListEnd\n"

/-- The generate_experience_entry function of src/app/utils/latex.py. -/
def generate_experience_entry (exp : Payload) : Option (List Char) :=
  match processBullets (bulletsOf exp) with
  | none => none
  | some ts =>
    some (S "\\resumeSubheadingExp\n"
      ++ S "    " ++ [lb] ++ S "\\textbf" ++ [lb]
      ++ escape_val (pyOr (dictGet exp "title") (dictGet exp "role")) ++ [rb]
      ++ S " $|$ \\textbf" ++ [lb] ++ S "\\textit" ++ [lb]
      ++ escape_val (dictGet exp "company") ++ [rb] ++ [rb]
      ++ S " $|$ \\textit" ++ [lb] ++ escape_val (dictGet exp "location") ++ [rb] ++ [rb]
      ++ [lb] ++ escape_val (dictGet exp "dates") ++ [rb] ++ S "\n"
      ++ itemBlock ts)

/-- Entries of experience.tex, each followed by a blank line. -/
def mapEntriesExp : List Payload → Option (List (List Char))
  | [] => some []
  | e :: es =>
    match generate_experience_entry e with
    | none => none
    | some t =>
      match mapEntriesExp es with
      | none => none
      | some ts => some ((t ++ S "\n") :: ts)

/-- The generate_experience_tex function of src/app/utils/latex.py. -/
def generate_experience_tex (exps : List Payload) : Option (List Char) :=
  match mapEntriesExp exps with
  | none => none
  | some es =>
    some (S "%-----------EXPERIENCE-----------%\n\\section" ++ [lb] ++ S "Experience" ++ [rb]
      ++ S "\n\\resumeSubHeadingListStart\n\n" ++ concatAll es
      ++ S "\\resumeSubHeadingListEnd\n")

/-- The generate_project_entry function of src/app/utils/latex.py. -/
def generate_project_entry (proj : Payload) : Option (List Char) :=
  match processBullets (bulletsOf proj) with
  | none => none
  | some ts =>
    some (S "\\resumeProjectHeading\n"
      ++ S "    " ++ [lb] ++ S "\\textbf" ++ [lb] ++ escape_val (dictGet proj "name") ++ [rb]
      ++ S " $|$ \\textit" ++ [lb] ++ escape_val (dictGet proj "tech") ++ [rb] ++ [rb]
      ++ S " " ++ [lb] ++ [rb] ++ S "\n"
      ++ itemBlock ts)

/-- Entries of projects.tex, each followed by a blank line. -/
def mapEntriesProj : List Payload → Option (List (List Char))
  | [] => some []
  | e :: es =>
    match generate_project_entry e with
    | none => none
    | some t =>
      match mapEntriesProj es with
      | none => none
      | some ts => some ((t ++ S "\n") :: ts)

/-- The generate_projects_tex function of src/app/utils/latex.py. -/
def generate_projects_tex (projs : List Payload) : Option (List Char) :=
  match mapEntriesProj projs with
  | none => none
  | some es =>
    some (S "%-----------PROJECTS-----------%\n\\section" ++ [lb] ++ S "Projects" ++ [rb]
      ++ S "\n\\resumeSubHeadingListStart\n\n" ++ concatAll es
      ++ S "\\resumeSubHeadingListEnd\n")

/-- Bookkeeping keys skipped by the skills table. -/
def skipKeys : List String := ["tags", "type", "key", "flavor", "version"]

/-- Unwraps a payload nested one level under a skills key when that value
is itself a dictionary; a non-dictionary skills payload would raise at
Python's .items() and never reaches this point in the pipeline. -/
def skillsEntries (skills : Payload) : List (String × Payload) :=
  match skills with
  | Payload.pdict entries =>
    match pget entries "skills" with
    | some (Payload.pdict inner) => inner
    | _ => entries
  | _ => []

/-- One table row of skills.tex. -/
def skillsRow (kv : String × Payload) : List Char :=
  let items_str : List Char :=
    match kv.2 with
    | Payload.plist l => joinWith (S ", ") (strOfList l) ++ S "."
    | p => strOf p
  S "    \\textbf" ++ [lb] ++ escape_latex kv.1.data ++ S ":" ++ [rb] ++ S " & "
    ++ escape_latex items_str ++ S "\\\\\n"

/-- Rows of the skills table with the bookkeeping keys skipped. -/
def rowsOf : List (String × Payload) → List Char
  | [] => []
  | kv :: rest => (if skipKeys.contains kv.1 then [] else skillsRow kv) ++ rowsOf rest

/-- The generate_skills_tex function of src/app/utils/latex.py. -/
def generate_skills_tex (skills : Payload) (append : Option (List Char)) : List Char :=
  S "\\section" ++ [lb] ++ S "Skills" ++ [rb] ++ S "\n\\small\n\\begin" ++ [lb]
    ++ S "tabular" ++ [rb] ++ [lb] ++ S " @" ++ [lb] ++ [rb] ++ S " p" ++ [lb]
    ++ S "0.15\\textwidth" ++ [rb] ++ S " p" ++ [lb] ++ S "0.80\\textwidth" ++ [rb]
    ++ S " @" ++ [lb] ++ [rb] ++ S " " ++ [rb] ++ S "\n"
  ++ rowsOf (skillsEntries skills)
  ++ (match append with
      | some ap => if ap.isEmpty then [] else S "    & " ++ escape_latex ap ++ S "\\\\\n"
      | none => [])
  ++ S "\\end" ++ [lb] ++ S "tabular" ++ [rb] ++ S "\n"

/-- The static DEFAULT_HEADING record of src/app/utils/latex.py. -/
def DEFAULT_HEADING : List (String × Payload) :=
  [("name", Payload.pstr "Shivang Patel"),
   ("location", Payload.pstr "Seattle, WA"),
   ("phone", Payload.pstr "+18575449579"),
   ("phone_display", Payload.pstr "(857)-544-9579"),
   ("email", Payload.pstr "patelshivang.work@gmail.com"),
   ("linkedin", Payload.pstr "shivangmpatel"),
   ("github", Payload.pstr "shivang2402")]

/-- Python dict assignment d[k] = v: replaces the first matching key in
place or appends the new key at the end, preserving insertion order. -/
def setKey (entries : List (String × Payload)) (k : String) (v : Payload) :
    List (String × Payload) :=
  if (entries.find? (fun kv => kv.1 == k)).isSome
  then entries.map (fun kv => if kv.1 == k then (kv.1, v) else kv)
  else entries ++ [(k, v)]

/-- Python h.update with only the truthy-valued entries kept, in entry
order. -/
def updateTruthy (h : List (String × Payload)) : List (String × Payload) →
    List (String × Payload)
  | [] => h
  | kv :: rest => updateTruthy (if truthyP kv.2 then setKey h kv.1 kv.2 else h) rest

/-- Python str of an optional value whose absent default is the empty
string, used for the raw (unescaped) interpolations of the heading. -/
def strOpt : Option Payload → List Char
  | none => []
  | some p => strOf p

/-- The generate_heading_tex function of src/app/utils/latex.py: defaults
merged with the truthy heading fields, then the location and email
overrides, then the fixed-layout emission.  A truthy non-dictionary heading
would raise at Python's .items() and never reaches this call. -/
def generate_heading_tex (heading : Option Payload) (location email : Option Payload) :
    List Char :=
  let h1 : List (String × Payload) :=
    match heading with
    | some (Payload.pdict entries) => updateTruthy DEFAULT_HEADING entries
    | some _ => DEFAULT_HEADING
    | none => DEFAULT_HEADING
  let h2 : List (String × Payload) :=
    match location with
    | some lv => if truthyP lv then setKey h1 "location" lv else h1
    | none => h1
  let h3 : List (String × Payload) :=
    match email with
    | some ev => if truthyP ev then setKey h2 "email" ev else h2
    | none => h2
  let phone_display : Option Payload :=
    match pget h3 "phone_display" with
    | some v => some v
    | none => pget h3 "phone"
  S "%----------HEADING----------%\n"
  ++ S "\\begin" ++ [lb] ++ S "center" ++ [rb] ++ S "\n"
  ++ S "    \\textbf" ++ [lb] ++ S "\\huge " ++ escape_val (pget h3 "name") ++ [rb]
    ++ S " \\\\ \\vspace" ++ [lb] ++ S "3pt" ++ [rb] ++ S "\n"
  ++ S "    \n"
  ++ S "    \\quad\n"
  ++ S "    " ++ [lb] ++ S "\\seticon" ++ [lb] ++ S "faMapMarker" ++ [rb]
    ++ S " \\underline" ++ [lb] ++ escape_val (pget h3 "location") ++ [rb] ++ [rb] ++ S "\n"
  ++ S "    \\quad\n"
  ++ S "    \\href" ++ [lb] ++ S "tel:" ++ strOpt (pget h3 "phone") ++ [rb] ++ [lb]
    ++ S "\\seticon" ++ [lb] ++ S "faPhone" ++ [rb] ++ S " \\underline" ++ [lb]
    ++ escape_val phone_display ++ [rb] ++ [rb] ++ S "\n"
  ++ S "    \\quad\n"
  ++ S "    \\href" ++ [lb] ++ S "mailto:" ++ strOpt (pget h3 "email") ++ [rb] ++ [lb]
    ++ S "\\seticon" ++ [lb] ++ S "faEnvelope" ++ [rb] ++ S " \\underline" ++ [lb]
    ++ escape_val (pget h3 "email") ++ [rb] ++ [rb] ++ S "\n"
  ++ S "    \\quad\n"
  ++ S "    \\href" ++ [lb] ++ S "https://www.linkedin.com/in/"
    ++ strOpt (pget h3 "linkedin") ++ [rb] ++ [lb] ++ S "\\seticon" ++ [lb]
    ++ S "faLinkedin" ++ [rb] ++ S " \\underline" ++ [lb]
    ++ escape_val (pget h3 "linkedin") ++ [rb] ++ [rb] ++ S "\n"
  ++ S "    \\quad\n"
  ++ S "    \\href" ++ [lb] ++ S "https://github.com/" ++ strOpt (pget h3 "github")
    ++ [rb] ++ [lb] ++ S "\\seticon" ++ [lb] ++ S "faGithub" ++ [rb] ++ S " \\underline"
    ++ [lb] ++ escape_val (pget h3 "github") ++ [rb] ++ [rb] ++ S "\n"
  ++ S "    \\quad\n"
  ++ S "\\end" ++ [lb] ++ S "center" ++ [rb] ++ S "\n"

/-- The get_section_content resolver of src/app/services/generator_service.py:
three colon-separated segments look the exact version up, two look the
current version of (key, flavor) up, one looks the current version of the
key up with no flavor filter; any other segment count resolves to
nothing. -/
def get_section_content (db : DB) (uid : Nat) (stype : String) (ref : List Char) :
    Option Payload :=
  match splitOnChar ':' ref with
  | [key, flavor, version] =>
    (db.sections.find? (fun s => s.user_id == uid && s.type == stype
      && s.key == String.mk key && s.flavor == String.mk flavor
      && s.version == version)).map (fun s => s.content)
  | [key, flavor] =>
    (db.sections.find? (fun s => s.user_id == uid && s.type == stype
      && s.key == String.mk key && s.flavor == String.mk flavor
      && s.is_current)).map (fun s => s.content)
  | [key] =>
    (db.sections.find? (fun s => s.user_id == uid && s.type == stype
      && s.key == String.mk key && s.is_current)).map (fun s => s.content)
  | _ => none

/-- A composition request: the resume_config dictionary, with absent keys
as none and the Python defaults for the two list keys. -/
structure ResumeConfig where
  location : Option (List Char)
  email : Option (List Char)
  experiences : List (List Char)
  projects : List (List Char)
  skills : Option (List Char)
  heading : Option (List Char)
  education : Option (List Char)

/-- The composed document handed to the assembler: the content dictionary
built by build_resume_content. -/
structure ResumeContent where
  location : Option Payload
  email : Option Payload
  experiences : List Payload
  projects : List Payload
  skills : Option Payload
  heading : Option Payload
  education : Option Payload

/-- Fetch of a single-value category: the guard is Python truthiness of the
reference (absent and empty references are skipped), and the slot holds
whatever the resolver returned, absent when it returned nothing. -/
def fetchSingle (db : DB) (uid : Nat) (stype : String) (ref : Option (List Char)) :
    Option Payload :=
  match ref with
  | some r => if r.isEmpty then none else get_section_content db uid stype r
  | none => none

/-- The build_resume_content function of
src/app/services/generator_service.py; the experience and project loops
append only the lookups that returned a truthy payload, in request
order. -/
def build_resume_content (db : DB) (uid : Nat) (cfg : ResumeConfig) : ResumeContent :=
  ⟨fetchSingle db uid "location" cfg.location,
   fetchSingle db uid "email" cfg.email,
   cfg.experiences.foldl (fun acc r =>
     match get_section_content db uid "experience" r with
     | some p => if truthyP p then acc ++ [p] else acc
     | none => acc) [],
   cfg.projects.foldl (fun acc r =>
     match get_section_content db uid "project" r with
     | some p => if truthyP p then acc ++ [p] else acc
     | none => acc) [],
   fetchSingle db uid "skills" cfg.skills,
   fetchSingle db uid "heading" cfg.heading,
   fetchSingle db uid "education" cfg.education⟩

/-- Python truthiness of an optional value. -/
def optTruthy : Option Payload → Bool
  | some p => truthyP p
  | none => false

/-- The generate_latex_files function of
src/app/services/generator_service.py, modelled as the list of fragment
files it writes over the skeleton defaults, in write order; none models a
call that never returns because a bullet made process_bullet loop
forever. -/
def generate_latex_files (c : ResumeContent) : Option (List (String × List Char)) :=
  let expPart : Option (List (String × List Char)) :=
    if c.experiences.isEmpty then some []
    else
      match generate_experience_tex c.experiences with
      | none => none
      | some t => some [("experience.tex", t)]
  let projPart : Option (List (String × List Char)) :=
    if c.projects.isEmpty then some []
    else
      match generate_projects_tex c.projects with
      | none => none
      | some t => some [("projects.tex", t)]
  let skillsPart : List (String × List Char) :=
    match c.skills with
    | some p => if truthyP p then [("skills.tex", generate_skills_tex p none)] else []
    | none => []
  let location_value : Option Payload :=
    match c.location with
    | some p => if truthyP p then dictGet p "value" else none
    | none => none
  let email_value : Option Payload :=
    match c.email with
    | some p => if truthyP p then dictGet p "value" else none
    | none => none
  let headingPart : List (String × List Char) :=
    if optTruthy location_value || optTruthy email_value || optTruthy c.heading
    then [("heading.tex", generate_heading_tex c.heading location_value email_value)]
    else []
  match expPart with
  | none => none
  | some l1 =>
    match projPart with
    | none => none
    | some l2 => some (l1 ++ l2 ++ skillsPart ++ headingPart)

/-! ## Build pipeline (src/app/services/generator_service.py lines 178-236) -/

/-- The environment a compile_pdf call observes: whether each of the two
compiler invocations hits the subprocess timeout, the exit codes the
invocations return (captured by the code and never inspected), whether the
expected artifact exists afterwards and its bytes, and whether the log file
exists and its content. -/
structure CompileEnv where
  run1_times_out : Bool
  run2_times_out : Bool
  run1_exit : Int
  run2_exit : Int
  pdf_exists : Bool
  pdf_bytes : List Nat
  log_exists : Bool
  log_content : List Char

/-- Outcome of compile_pdf: the timeout exception propagating out of
subprocess.run, the Exception carrying the diagnostic message, or the
artifact bytes. -/
inductive CompileResult where
  | timeout
  | failed (msg : List Char)
  | ok (bytes : List Nat)

/-- The compile_pdf function of src/app/services/generator_service.py: two
sequential compiler invocations whose exit codes are ignored, success
defined as the artifact existing, and on failure a diagnostic built from
the first five log lines starting with the exclamation marker, or the
generic message when the log is absent or holds no marker line. -/
def compile_pdf (env : CompileEnv) : CompileResult :=
  if env.run1_times_out then CompileResult.timeout
  else if env.run2_times_out then CompileResult.timeout
  else if env.pdf_exists then CompileResult.ok env.pdf_bytes
  else
    CompileResult.failed
      (if env.log_exists then
        let errors := (splitOnChar '\n' env.log_content).filter
          (fun line => line.take 1 == ['!'])
        if errors.isEmpty then S "PDF compilation failed"
        else joinWith ['\n'] (errors.take 5)
      else S "PDF compilation failed")

/-- Number of compiler invocations compile_pdf performs: the loop runs
twice unless the first invocation's timeout exception aborts it. -/
def compile_pdf_runs (env : CompileEnv) : Nat :=
  if env.run1_times_out then 1 else 2

/-- Scratch-directory state: the set of live scratch directories (as
numbered names) and the allocator counter of tempfile.mkdtemp. -/
structure World where
  dirs : List Nat
  next_dir : Nat

/-- Environment of one generate_resume call: whether the skeleton copies
succeed, and the compile environment. -/
structure RenderEnv where
  copy_ok : Bool
  compile_env : CompileEnv

/-- Outcome of generate_resume as its caller observes it. -/
inductive RenderResult where
  | ok (bytes : List Nat)
  | copyError
  | compileTimeout
  | compileFailed (msg : List Char)

/-- Body of the try block of generate_resume: skeleton copy, content
resolution, fragment generation (none when a bullet loops forever and the
call never returns), then the two-pass compile. -/
def renderBody (env : RenderEnv) (db : DB) (uid : Nat) (cfg : ResumeConfig) :
    Option RenderResult :=
  if env.copy_ok = false then some RenderResult.copyError
  else
    match generate_latex_files (build_resume_content db uid cfg) with
    | none => none
    | some _files =>
      match compile_pdf env.compile_env with
      | CompileResult.timeout => some RenderResult.compileTimeout
      | CompileResult.failed m => some (RenderResult.compileFailed m)
      | CompileResult.ok b => some (RenderResult.ok b)

/-- The generate_resume function of src/app/services/generator_service.py:
mkdtemp allocates a fresh scratch directory, the try body runs, and the
finally clause removes the directory on success and on every exception
path.  A body that never returns (none) never reaches the finally clause,
and then the call itself never returns. -/
def generate_resume (env : RenderEnv) (db : DB) (uid : Nat) (cfg : ResumeConfig)
    (w : World) : Option (RenderResult × World) :=
  match renderBody env db uid cfg with
  | none => none
  | some r => some (r, ⟨(w.next_dir :: w.dirs).erase w.next_dir, w.next_dir + 1⟩)

/-! ## Theorems for the resolver and pipeline claims -/

/-- The append-only-when-truthy loop is the in-order filter-map of the
resolved references. -/
theorem foldl_resolve_eq (db : DB) (uid : Nat) (stype : String) :
    ∀ (refs : List (List Char)) (acc : List Payload),
      refs.foldl (fun acc r =>
        match get_section_content db uid stype r with
        | some p => if truthyP p then acc ++ [p] else acc
        | none => acc) acc
      = acc ++ refs.filterMap (fun r =>
          match get_section_content db uid stype r with
          | some p => if truthyP p then some p else none
          | none => none) := by
  intro refs
  induction refs with
  | nil => intro acc; simp
  | cons r rest ih =>
    intro acc
    rw [List.foldl_cons, List.filterMap_cons]
    cases hg : get_section_content db uid stype r with
    | none =>
      simp only [hg]
      exact ih acc
    | some p =>
      by_cases ht : truthyP p = true
      · simp only [hg, ht, if_true]
        rw [ih]
        simp
      · simp only [hg, ht, if_false]
        exact ih acc

/-- Claim C7: a reference that resolves to no stored block is silently
dropped.  The experience and project lists of the composed document are
exactly the in-order truthy resolutions of the requested references (so a
reference resolving to nothing contributes nothing and the lists may be
empty); a single-value category whose reference resolves to nothing is
left absent; and the empty composition request composes to the empty
document. -/
theorem build_resume_content_resolution (db : DB) (uid : Nat) (cfg : ResumeConfig) :
    ((build_resume_content db uid cfg).experiences
      = cfg.experiences.filterMap (fun r =>
          match get_section_content db uid "experience" r with
          | some p => if truthyP p then some p else none
          | none => none)) ∧
    ((build_resume_content db uid cfg).projects
      = cfg.projects.filterMap (fun r =>
          match get_section_content db uid "project" r with
          | some p => if truthyP p then some p else none
          | none => none)) ∧
    ((∀ r, cfg.location = some r → get_section_content db uid "location" r = none) →
      (build_resume_content db uid cfg).location = none) ∧
    ((∀ r, cfg.email = some r → get_section_content db uid "email" r = none) →
      (build_resume_content db uid cfg).email = none) ∧
    ((∀ r, cfg.skills = some r → get_section_content db uid "skills" r = none) →
      (build_resume_content db uid cfg).skills = none) ∧
    ((∀ r, cfg.heading = some r → get_section_content db uid "heading" r = none) →
      (build_resume_content db uid cfg).heading = none) ∧
    ((∀ r, cfg.education = some r → get_section_content db uid "education" r = none) →
      (build_resume_content db uid cfg).education = none) ∧
    build_resume_content db uid ⟨none, none, [], [], none, none, none⟩
      = ⟨none, none, [], [], none, none, none⟩ := by
  have hsingle : ∀ (stype : String) (ref : Option (List Char)),
      (∀ r, ref = some r → get_section_content db uid stype r = none) →
      fetchSingle db uid stype ref = none := by
    intro stype ref hmiss
    cases ref with
    | none => rfl
    | some r =>
      rw [fetchSingle]
      by_cases he : r.isEmpty
      · rw [if_pos he]
      · rw [if_neg he]
        exact hmiss r rfl
  refine ⟨?_, ?_, hsingle _ _, hsingle _ _, hsingle _ _, hsingle _ _, hsingle _ _, rfl⟩
  · simpa using foldl_resolve_eq db uid "experience" cfg.experiences []
  · simpa using foldl_resolve_eq db uid "project" cfg.projects []

/-- A missing-reference composition request used by the witness. -/
def cfgMissing : ResumeConfig :=
  ⟨some (S "nowhere"), none, [S "amazon:systems", S "ghost:x"], [],
   some (S "missing:skills"), none, none⟩

/-- Claim C7 witness: on a concrete store, a skills reference that resolves
to nothing leaves the skills slot absent, and the empty request composes to
the empty document. -/
theorem build_resume_content_resolution_witness :
    (build_resume_content dbAB 7 cfgMissing).skills = none ∧
    build_resume_content dbAB 7 ⟨none, none, [], [], none, none, none⟩
      = ⟨none, none, [], [], none, none, none⟩ := by
  have h := build_resume_content_resolution dbAB 7 cfgMissing
  refine ⟨h.2.2.2.2.1 ?_, (build_resume_content_resolution dbAB 7 cfgMissing).2.2.2.2.2.2.2⟩
  intro r hr
  have h2 : (some (S "missing:skills") : Option (List Char)) = some r := hr
  rw [← Option.some.inj h2]
  rfl

/-- Claim C8: with neither invocation timing out, the compile step invokes
the external compiler exactly twice and succeeds with the artifact bytes
exactly when the artifact file exists — the compiler's exit codes are
never consulted — and otherwise fails with the first five log lines
beginning with the exclamation diagnostic marker, or with the generic
compilation-failed message when no log file is available (or the log holds
no marker line). -/
theorem compile_pdf_spec (env : CompileEnv)
    (h1 : env.run1_times_out = false) (h2 : env.run2_times_out = false) :
    compile_pdf_runs env = 2 ∧
    (env.pdf_exists = true → compile_pdf env = CompileResult.ok env.pdf_bytes) ∧
    (∀ b, compile_pdf env = CompileResult.ok b →
      env.pdf_exists = true ∧ b = env.pdf_bytes) ∧
    (env.pdf_exists = false → env.log_exists = true →
      ((splitOnChar '\n' env.log_content).filter (fun line => line.take 1 == ['!'])) ≠ [] →
      compile_pdf env = CompileResult.failed (joinWith ['\n']
        (((splitOnChar '\n' env.log_content).filter
          (fun line => line.take 1 == ['!'])).take 5))) ∧
    (env.pdf_exists = false → env.log_exists = true →
      ((splitOnChar '\n' env.log_content).filter (fun line => line.take 1 == ['!'])) = [] →
      compile_pdf env = CompileResult.failed (S "PDF compilation failed")) ∧
    (env.pdf_exists = false → env.log_exists = false →
      compile_pdf env = CompileResult.failed (S "PDF compilation failed")) ∧
    (∀ e1 e2 : Int, compile_pdf ⟨env.run1_times_out, env.run2_times_out, e1, e2,
        env.pdf_exists, env.pdf_bytes, env.log_exists, env.log_content⟩
      = compile_pdf env) := by
  refine ⟨?_, ?_, ?_, ?_, ?_, ?_, ?_⟩
  · simp [compile_pdf_runs, h1]
  · intro hp
    simp [compile_pdf, h1, h2, hp]
  · intro b hb
    simp only [compile_pdf, h1, h2, Bool.false_eq_true, if_false] at hb
    cases hp : env.pdf_exists with
    | false => rw [hp] at hb; simp at hb
    | true =>
      rw [hp] at hb
      simp at hb
      exact ⟨rfl, hb.symm⟩
  · intro hp hl hne
    simp only [compile_pdf, h1, h2, hp, hl, Bool.false_eq_true, if_false, if_true]
    rw [if_neg (by simpa using hne)]
  · intro hp hl hemp
    simp only [compile_pdf, h1, h2, hp, hl, Bool.false_eq_true, if_false, if_true]
    rw [if_pos (by simpa using hemp)]
  · intro hp hl
    simp [compile_pdf, h1, h2, hp, hl]
  · intro e1 e2
    cases henv : env
    rfl

/-- A compile environment used by the C8 witness: no timeouts, a non-zero
exit code, no artifact, and a log with two diagnostic lines. -/
def env1 : CompileEnv := ⟨false, false, 1, 0, false, [], true, S "! err1\nok line\n! err2"⟩

/-- Claim C8 witness: on the concrete environment the step fails with
exactly the two marker lines of the log joined by a newline. -/
theorem compile_pdf_spec_witness :
    compile_pdf env1 = CompileResult.failed (S "! err1\n! err2") := by
  have h := (compile_pdf_spec env1 rfl rfl).2.2.2.1 rfl rfl (List.cons_ne_nil _ _)
  rw [h]
  rfl

/-- Claim C9: whenever generate_resume returns — with the artifact, a copy
error, a compile failure or a compile timeout — the scratch directory it
allocated has been removed again, so the world's directory set is exactly
what it was before the call. -/
theorem generate_resume_cleanup (env : RenderEnv) (db : DB) (uid : Nat)
    (cfg : ResumeConfig) (w : World) (r : RenderResult) (w' : World)
    (h : generate_resume env db uid cfg w = some (r, w')) :
    w'.dirs = w.dirs := by
  cases hb : renderBody env db uid cfg with
  | none =>
    simp only [generate_resume, hb] at h
    exact Option.noConfusion h
  | some r2 =>
    simp only [generate_resume, hb] at h
    have h3 : w' = ⟨(w.next_dir :: w.dirs).erase w.next_dir, w.next_dir + 1⟩ :=
      (congrArg Prod.snd (Option.some.inj h)).symm
    rw [h3]
    simp [List.erase_cons_head]

/-- A compile environment whose artifact exists. -/
def env2 : CompileEnv := ⟨false, false, 0, 0, true, [37], false, []⟩

/-- Claim C9 witness: a concrete successful run returns with the initial
directory set restored. -/
theorem generate_resume_cleanup_witness :
    (⟨[5], 10⟩ : World).dirs = (⟨[5], 9⟩ : World).dirs :=
  generate_resume_cleanup ⟨true, env2⟩ emptyDB 0 ⟨none, none, [], [], none, none, none⟩
    ⟨[5], 9⟩ (RenderResult.ok [37]) ⟨[5], 10⟩ rfl

/-- A heading whose field merge sees an empty payload behaves as if no
heading payload had resolved. -/
theorem generate_heading_tex_empty (p : Payload) (hp : truthyP p = false)
    (lv ev : Option Payload) :
    generate_heading_tex (some p) lv ev = generate_heading_tex none lv ev := by
  cases p with
  | pstr s => rfl
  | plist l => rfl
  | pdict entries =>
    cases entries with
    | nil => rfl
    | cons kv rest => simp [truthyP] at hp

/-- Claim C10: a reference whose lookup succeeds but returns an empty
payload (empty dictionary, list or string) is treated exactly like one that
resolved to nothing: the experience and project loops drop the entry, and
for every single-value slot the set of fragment files written over the
skeleton is the same as when the slot is absent, so an empty payload never
causes a fragment file to be written. -/
theorem empty_payload_like_missing (db : DB) (uid : Nat) (cfg : ResumeConfig)
    (c : ResumeContent) (p : Payload) (hp : truthyP p = false) :
    (∀ r pre post, get_section_content db uid "experience" r = some p →
      (build_resume_content db uid
        ⟨cfg.location, cfg.email, pre ++ r :: post, cfg.projects, cfg.skills,
          cfg.heading, cfg.education⟩).experiences
      = (build_resume_content db uid
        ⟨cfg.location, cfg.email, pre ++ post, cfg.projects, cfg.skills,
          cfg.heading, cfg.education⟩).experiences) ∧
    (∀ r pre post, get_section_content db uid "project" r = some p →
      (build_resume_content db uid
        ⟨cfg.location, cfg.email, cfg.experiences, pre ++ r :: post, cfg.skills,
          cfg.heading, cfg.education⟩).projects
      = (build_resume_content db uid
        ⟨cfg.location, cfg.email, cfg.experiences, pre ++ post, cfg.skills,
          cfg.heading, cfg.education⟩).projects) ∧
    (generate_latex_files ⟨c.location, c.email, c.experiences, c.projects, some p,
        c.heading, c.education⟩
      = generate_latex_files ⟨c.location, c.email, c.experiences, c.projects, none,
        c.heading, c.education⟩) ∧
    (generate_latex_files ⟨some p, c.email, c.experiences, c.projects, c.skills,
        c.heading, c.education⟩
      = generate_latex_files ⟨none, c.email, c.experiences, c.projects, c.skills,
        c.heading, c.education⟩) ∧
    (generate_latex_files ⟨c.location, some p, c.experiences, c.projects, c.skills,
        c.heading, c.education⟩
      = generate_latex_files ⟨c.location, none, c.experiences, c.projects, c.skills,
        c.heading, c.education⟩) ∧
    (generate_latex_files ⟨c.location, c.email, c.experiences, c.projects, c.skills,
        some p, c.education⟩
      = generate_latex_files ⟨c.location, c.email, c.experiences, c.projects, c.skills,
        none, c.education⟩) ∧
    (generate_latex_files ⟨c.location, c.email, c.experiences, c.projects, c.skills,
        c.heading, some p⟩
      = generate_latex_files ⟨c.location, c.email, c.experiences, c.projects, c.skills,
        c.heading, none⟩) := by
  have hdrop : ∀ (stype : String) (r : List Char) (pre post : List (List Char)),
      get_section_content db uid stype r = some p →
      (pre ++ r :: post).filterMap (fun r =>
        match get_section_content db uid stype r with
        | some q => if truthyP q then some q else none
        | none => none)
      = (pre ++ post).filterMap (fun r =>
          match get_section_content db uid stype r with
          | some q => if truthyP q then some q else none
          | none => none) := by
    intro stype r pre post hg
    rw [List.filterMap_append, List.filterMap_append, List.filterMap_cons]
    simp only [hg, hp, Bool.false_eq_true, if_false]
  refine ⟨?_, ?_, ?_, ?_, ?_, ?_, ?_⟩
  · intro r pre post hg
    have h1 : (build_resume_content db uid
        ⟨cfg.location, cfg.email, pre ++ r :: post, cfg.projects, cfg.skills,
          cfg.heading, cfg.education⟩).experiences
        = (pre ++ r :: post).filterMap (fun r =>
            match get_section_content db uid "experience" r with
            | some q => if truthyP q then some q else none
            | none => none) := by
      exact foldl_resolve_eq db uid "experience" (pre ++ r :: post) []
    have h2 : (build_resume_content db uid
        ⟨cfg.location, cfg.email, pre ++ post, cfg.projects, cfg.skills,
          cfg.heading, cfg.education⟩).experiences
        = (pre ++ post).filterMap (fun r =>
            match get_section_content db uid "experience" r with
            | some q => if truthyP q then some q else none
            | none => none) := by
      exact foldl_resolve_eq db uid "experience" (pre ++ post) []
    rw [h1, h2]
    exact hdrop "experience" r pre post hg
  · intro r pre post hg
    have h1 : (build_resume_content db uid
        ⟨cfg.location, cfg.email, cfg.experiences, pre ++ r :: post, cfg.skills,
          cfg.heading, cfg.education⟩).projects
        = (pre ++ r :: post).filterMap (fun r =>
            match get_section_content db uid "project" r with
            | some q => if truthyP q then some q else none
            | none => none) := by
      exact foldl_resolve_eq db uid "project" (pre ++ r :: post) []
    have h2 : (build_resume_content db uid
        ⟨cfg.location, cfg.email, cfg.experiences, pre ++ post, cfg.skills,
          cfg.heading, cfg.education⟩).projects
        = (pre ++ post).filterMap (fun r =>
            match get_section_content db uid "project" r with
            | some q => if truthyP q then some q else none
            | none => none) := by
      exact foldl_resolve_eq db uid "project" (pre ++ post) []
    rw [h1, h2]
    exact hdrop "project" r pre post hg
  · simp [generate_latex_files, hp]
  · simp [generate_latex_files, hp]
  · simp [generate_latex_files, hp]
  · simp [generate_latex_files, hp, optTruthy, generate_heading_tex_empty p hp]
  · simp [generate_latex_files]

/-- A stored row whose payload is the empty dictionary. -/
def secE : Section := ⟨2, 7, "experience", "empty", "default", S "1.0", Payload.pdict [], true, 2⟩

/-- A store holding the two-row chain plus the empty-payload row. -/
def dbE : DB := ⟨[secA, secB, secE], 3⟩

/-- Claim C10 witness: on a concrete store an experience reference
resolving to the empty dictionary contributes nothing to the composed list,
and an empty skills payload writes the same fragment files as an absent
skills slot. -/
theorem empty_payload_like_missing_witness :
    (build_resume_content dbE 7 ⟨none, none, [S "empty:default"], [], none, none,
        none⟩).experiences
      = (build_resume_content dbE 7 ⟨none, none, [], [], none, none, none⟩).experiences ∧
    generate_latex_files ⟨none, none, [], [], some (Payload.pdict []), none, none⟩
      = generate_latex_files ⟨none, none, [], [], none, none, none⟩ := by
  have h := empty_payload_like_missing dbE 7 ⟨none, none, [], [], none, none, none⟩
    ⟨none, none, [], [], none, none, none⟩ (Payload.pdict []) rfl
  exact ⟨h.1 (S "empty:default") [] [] rfl, h.2.2.1⟩

end ResumeBackend
